import Mathlib

/-!
Verification of the prompt-mixer Gemini connector (`src/main.ts`).

Strings are modelled as `List Char` (`Str`). The Node/`@google/genai`
collaborators (network fetch, filesystem reads, `url.fileURLToPath`, the chat
session) are modelled as an explicit environment record of possibly-failing
functions (`Except Err`); a thrown JavaScript exception is an `Except.error`
carrying the message string. Pure helpers of `src/main.ts` are translated
function by function and keep their source names.
-/

namespace GeminiConnector

/-- Strings are modelled as lists of characters. -/
abbrev Str := List Char

deriving instance DecidableEq for Except

/-- Error values: a thrown JavaScript exception, modelled by its message. -/
abbrev Err := String

/-- ASCII lower-casing as performed by JavaScript `toLowerCase` on the ASCII
range (the only characters relevant to extensions, schemes and header values
here; JS also maps non-ASCII letters, which we leave unchanged). -/
def jsToLower (c : Char) : Char :=
  match c with
  | 'A' => 'a' | 'B' => 'b' | 'C' => 'c' | 'D' => 'd' | 'E' => 'e'
  | 'F' => 'f' | 'G' => 'g' | 'H' => 'h' | 'I' => 'i' | 'J' => 'j'
  | 'K' => 'k' | 'L' => 'l' | 'M' => 'm' | 'N' => 'n' | 'O' => 'o'
  | 'P' => 'p' | 'Q' => 'q' | 'R' => 'r' | 'S' => 's' | 'T' => 't'
  | 'U' => 'u' | 'V' => 'v' | 'W' => 'w' | 'X' => 'x' | 'Y' => 'y'
  | 'Z' => 'z' | other => other

/-- Lower-case a whole string, as JS `toLowerCase` (ASCII range). -/
def lowerStr (s : Str) : Str := s.map jsToLower

/-- Whitespace as matched by the JS `\s` class and `String.trim`, restricted
to the ASCII characters that can occur in the inputs considered here. -/
def isJsWhitespace (c : Char) : Bool :=
  c = ' ' || c = '\t' || c = '\n' || c = '\r' || c = '\x0b' || c = '\x0c'

/-- The opening-wrapper characters stripped by `stripWrappingCharacters`
(source regex `^[<({\['"]+`). -/
def isLeadingWrapper (c : Char) : Bool :=
  c = '<' || c = '(' || c = '{' || c = '[' || c = '\'' || c = '"'

/-- The trailing punctuation characters stripped by `stripWrappingCharacters`
(source regex `[>)}\]'".,;!]+$`, removed one character at a time). -/
def isTrailingStrip (c : Char) : Bool :=
  c = '>' || c = ')' || c = '}' || c = ']' || c = '\'' || c = '"' ||
  c = '.' || c = ',' || c = ';' || c = '!'

/-- JS word characters (`\w` = `[A-Za-z0-9_]`), used for the `\b` boundary of
`REMOTE_LINK_REGEX`. -/
def isWordChar (c : Char) : Bool :=
  ('a' ≤ c && c ≤ 'z') || ('A' ≤ c && c ≤ 'Z') || ('0' ≤ c && c ≤ '9') || c = '_'

/-- Characters that terminate a `REMOTE_LINK_REGEX` match: the negated class
`[^\s<>"')]`. -/
def isStopChar (c : Char) : Bool :=
  isJsWhitespace c || c = '<' || c = '>' || c = '"' || c = '\'' || c = ')'

/-- JS `String.trim`: drop whitespace from both ends. -/
def trimJs (s : Str) : Str :=
  ((s.dropWhile isJsWhitespace).reverse.dropWhile isJsWhitespace).reverse

/-- Remove the trailing run of closing/punctuation characters; this is the
`while` loop of `stripWrappingCharacters` (source lines 48-50), which slices
off the last character while it matches `[>)}\]'".,;!]`. -/
def dropTrailingWrap (s : Str) : Str :=
  (s.reverse.dropWhile isTrailingStrip).reverse

/-- `stripWrappingCharacters` (source lines 46-52): trim, strip the leading
run of opening wrappers, then strip trailing closers one at a time. -/
def stripWrappingCharacters (s : Str) : Str :=
  dropTrailingWrap ((trimJs s).dropWhile isLeadingWrapper)

/-- Models Node `path.extname` (POSIX): the extension of the last path
component — the substring from the component's rightmost `.` to its end,
except that it is empty when there is no dot, when the rightmost dot is the
component's first character (dotfiles), or when the component is exactly
`..`. Trailing slashes are ignored. -/
def extnamePosix (p : Str) : Str :=
  let rc := (p.reverse.dropWhile (· = '/')).takeWhile (· ≠ '/')
  let after := rc.takeWhile (· ≠ '.')
  if after.length + 1 < rc.length ∧ rc ≠ ['.', '.'] then
    '.' :: after.reverse
  else
    []

/-- `getExtension` (source lines 54-58): take the text before the first `?`,
then before the first `#`, apply `path.extname`, lower-case the result, and
return `null` (here `none`) when it is empty. -/
def getExtension (input : Str) : Option Str :=
  let base := (input.takeWhile (· ≠ '?')).takeWhile (· ≠ '#')
  let ext := extnamePosix base
  if ext = [] then none else some (lowerStr ext)

/-- `SUPPORTED_FILE_TYPES` (source lines 12-23): the fixed extension-to-media
type record; a JS record lookup yielding `undefined` is `none`. -/
def SUPPORTED_FILE_TYPES (ext : Str) : Option Str :=
  if ext = ".pdf".toList then some "application/pdf".toList
  else if ext = ".png".toList then some "image/png".toList
  else if ext = ".jpg".toList then some "image/jpeg".toList
  else if ext = ".jpeg".toList then some "image/jpeg".toList
  else if ext = ".gif".toList then some "image/gif".toList
  else if ext = ".bmp".toList then some "image/bmp".toList
  else if ext = ".webp".toList then some "image/webp".toList
  else if ext = ".svg".toList then some "image/svg+xml".toList
  else if ext = ".heic".toList then some "image/heic".toList
  else if ext = ".heif".toList then some "image/heif".toList
  else none

/-- The support test applied to a candidate string: the guard
`ext && SUPPORTED_FILE_TYPES[ext]` of source lines 97, 107-108 and 128 (all
table values are non-empty strings, so JS truthiness of the lookup is
`isSome`). -/
def isSupportedRef (s : Str) : Bool :=
  match getExtension s with
  | some ext => (SUPPORTED_FILE_TYPES ext).isSome
  | none => false

/-- The media-type values of the `SUPPORTED_FILE_TYPES` table. -/
def supportedMimeValues : List Str :=
  ["application/pdf".toList, "image/png".toList, "image/jpeg".toList,
   "image/gif".toList, "image/bmp".toList, "image/webp".toList,
   "image/svg+xml".toList, "image/heic".toList, "image/heif".toList]

/-- A message part sent to the model: plain text, or an inline attachment
(`{ inlineData: { mimeType, data } }` with `data` base64-encoded). -/
inductive MsgPart where
  | text (s : Str)
  | inlineData (mimeType : Str) (data : Str)
deriving DecidableEq

/-- The per-prompt outcome: `Completion` (`{Content, TokenUsage?}`) or
`ErrorCompletion` (`{Error}`), source lines 25-32. -/
inductive CompletionResult where
  | ok (Content : Str) (TokenUsage : Option Nat)
  | err (Error : Err)
deriving DecidableEq

/-- `ConnectorResponse` (source lines 34-37). -/
structure ConnectorResponse where
  Completions : List CompletionResult
  ModelType : Option Str
deriving DecidableEq

/-- The effectful collaborators of `src/main.ts`, as an explicit record. A
JavaScript exception is `Except.error` with the thrown message. `fetch`
returns (HTTP status, `Content-Type` header or absent, body bytes);
`setup` models reading the settings, constructing `GoogleGenAI` and
`ai.chats.create` (source lines 188-199); `chatSend i`/`countTokens i` are
the collaborator calls made while processing the `i`-th prompt
(`result.text` may be absent, hence `Option`). -/
structure Env where
  fileURLToPath : Str → Except Err Str
  fetch : Str → Except Err (Nat × Option Str × List Nat)
  readFile : Str → Except Err (List Nat)
  homedir : Str
  cwd : Str
  setup : Except Err Unit
  chatSend : Nat → List MsgPart → Except Err (Option Str)
  countTokens : Nat → List MsgPart → Except Err (Option Nat)

/-- Models `isHttpUrl` (source lines 60-67): `new URL(value)` succeeds with
scheme http or https. Per the WHATWG parser a special scheme is followed by
an optional run of slashes and then a mandatory non-empty host; validity is
modelled as a case-insensitive `http:`/`https:` scheme with a non-empty host
part (credential/port/IP syntax is not distinguished — adequate for the
whitespace-free tokens this connector classifies). -/
def isHttpUrl (value : Str) : Bool :=
  let ls := lowerStr value
  let afterScheme :=
    if "https:".toList.isPrefixOf ls then some (ls.drop 6)
    else if "http:".toList.isPrefixOf ls then some (ls.drop 5)
    else none
  match afterScheme with
  | none => false
  | some rest =>
    let host := (rest.dropWhile (· = '/')).takeWhile (fun c => c ≠ '/' && c ≠ '?' && c ≠ '#')
    !host.isEmpty

/-- Models `isFileUrl` (source lines 69-76): `new URL(value)` succeeds with
scheme `file:`. The WHATWG parser accepts any `file:` URL (empty host and
path allowed), so this is a case-insensitive scheme check. -/
def isFileUrl (value : Str) : Bool :=
  "file:".toList.isPrefixOf (lowerStr value)

/-- Models Node `url.fileURLToPath(new URL(s))` on POSIX as called at source
lines 96 and 126: parses `file://<host><path>`, throws unless the host is
empty or `localhost`, and returns the path (`/` when empty). Percent-decoding
and the encoded-slash check are omitted (no percent escapes occur in the
inputs considered). This concrete model instantiates example environments;
general theorems quantify over an arbitrary `Env.fileURLToPath`. -/
def nodeFileURLToPath (s : Str) : Except Err Str :=
  if "file://".toList.isPrefixOf (lowerStr s) then
    let rest := s.drop 7
    let host := rest.takeWhile (· ≠ '/')
    let path := rest.drop host.length
    if host = [] ∨ lowerStr host = "localhost".toList then
      .ok (if path = [] then ['/'] else path)
    else
      .error "File URL host must be localhost or empty"
  else
    .error "The URL must be of scheme file"

/-- Models `path.join(a, b)` for the shapes used at source line 84: a single
separator between the pieces, with duplicate leading slashes of `b`
collapsed; no dot-segment normalization (none occurs in the inputs
considered). -/
def pathJoin (a b : Str) : Str := a ++ '/' :: b.dropWhile (· = '/')

/-- Models `path.isAbsolute` (POSIX): begins with `/`. -/
def pathIsAbsolute (p : Str) : Bool := p.head? = some '/'

/-- Models `path.resolve(p)` against the working directory (source line 87):
absolute paths unchanged, otherwise joined onto `cwd`; no dot-segment
normalization (none occurs in the inputs considered). -/
def pathResolve (cwd p : Str) : Str :=
  if pathIsAbsolute p then p else pathJoin cwd p

/-- `resolveLocalPath` (source lines 78-88). -/
def resolveLocalPath (env : Env) (reference : Str) : Except Err Str :=
  if isFileUrl reference then
    env.fileURLToPath reference
  else if reference.head? = some '~' then
    .ok (pathJoin env.homedir (reference.drop 1))
  else
    .ok (pathResolve env.cwd reference)

/-- Recognize one of the `REMOTE_LINK_REGEX` scheme alternatives
(`https?://` then `file://`, case-insensitively per the `i` flag) at the head
of `l`; returns the matched characters in original case and the remainder. -/
def urlMatchAt (l : Str) : Option (Str × Str) :=
  if lowerStr (l.take 8) = "https://".toList then some (l.take 8, l.drop 8)
  else if lowerStr (l.take 7) = "http://".toList then some (l.take 7, l.drop 7)
  else if lowerStr (l.take 7) = "file://".toList then some (l.take 7, l.drop 7)
  else none

/-- The `\b` boundary combined with the scheme alternatives: a match can
start only when the previous character (if any) is not a word character. -/
def tryMatch (prev : Option Char) (l : Str) : Option (Str × Str) :=
  match prev with
  | none => urlMatchAt l
  | some pc => if isWordChar pc then none else urlMatchAt l

/-- Global scan of `REMOTE_LINK_REGEX` = `/\b(?:https?:\/\/|file:\/\/)[^\s<>"')]+/gi`
(source line 11): at each position with a word boundary before it, match a
scheme alternative followed by a non-empty maximal run of non-stop
characters, then continue after the match; otherwise advance one character.
`prev` is the character before the current position (`none` at the start);
`fuel` bounds the recursion and is instantiated with the text length, which
suffices because every step consumes at least one character. -/
def remoteMatchesAux : Nat → Option Char → Str → List Str
  | 0, _, _ => []
  | _ + 1, _, [] => []
  | fuel + 1, prev, c :: cs =>
    match tryMatch prev (c :: cs) with
    | some (pre, rest) =>
      let run := rest.takeWhile (fun ch => !isStopChar ch)
      if run = [] then
        remoteMatchesAux fuel (some c) cs
      else
        (pre ++ run) :: remoteMatchesAux fuel (some (run.getLastD ' ')) (rest.drop run.length)
    | none => remoteMatchesAux fuel (some c) cs

/-- `text.match(REMOTE_LINK_REGEX) ?? []` (source line 93). -/
def remoteMatches (text : Str) : List Str :=
  remoteMatchesAux text.length none text

/-- Models `text.split(/\s+/)` (source line 102) as the maximal runs of
non-whitespace characters. (JS additionally yields an empty token when the
text starts or ends with whitespace; those are discarded by the
`!candidate` guard in the consuming loop, so they are omitted here.) -/
def splitWsAux : Nat → Str → List Str
  | 0, _ => []
  | fuel + 1, s =>
    let rest := s.dropWhile isJsWhitespace
    if rest = [] then []
    else
      let tok := rest.takeWhile (fun c => !isJsWhitespace c)
      tok :: splitWsAux fuel (rest.drop tok.length)

def splitWs (s : Str) : List Str := splitWsAux s.length s

/-- One `Set.add` of `extractFileReferences` (source lines 98 and 109): a JS
`Set` preserves insertion order, so adding an absent element appends it. -/
def insertIfAbsent (acc : List Str) (x : Str) : List Str :=
  if x ∈ acc then acc else acc ++ [x]

/-- Pass 1 of `extractFileReferences` (source lines 93-100): for each regex
match, normalize it; for a candidate with a literal `file://` prefix resolve
it to a filesystem path first (this `fileURLToPath` call sits outside any
try/catch and its exception propagates); keep the candidate when the
effective extension is a `SUPPORTED_FILE_TYPES` key (all table values are
non-empty strings, so JS truthiness is `isSome`). -/
def pass1 (env : Env) : List Str → List Str → Except Err (List Str)
  | acc, [] => .ok acc
  | acc, rawMatch :: ms => do
    let candidate := stripWrappingCharacters rawMatch
    let target ←
      if "file://".toList.isPrefixOf candidate then env.fileURLToPath candidate
      else pure candidate
    let acc' := if isSupportedRef target then insertIfAbsent acc candidate else acc
    pass1 env acc' ms

/-- Pass 2 of `extractFileReferences` (source lines 102-111): whitespace
tokens, skipping empty ones and those classified as HTTP or file URLs,
keeping tokens with a supported extension. -/
def pass2 : List Str → List Str → List Str
  | acc, [] => acc
  | acc, rawToken :: ts =>
    let candidate := stripWrappingCharacters rawToken
    if candidate = [] ∨ isHttpUrl candidate ∨ isFileUrl candidate then
      pass2 acc ts
    else if isSupportedRef candidate then pass2 (insertIfAbsent acc candidate) ts
    else pass2 acc ts

/-- `extractFileReferences` (source lines 90-114). -/
def extractFileReferences (env : Env) (text : Str) : Except Err (List Str) := do
  let acc ← pass1 env [] (remoteMatches text)
  pure (pass2 acc (splitWs text))

/-- The RFC 4648 base64 alphabet used by `Buffer.toString('base64')`. -/
def b64Alphabet : Str :=
  "ABCDEFGHIJKLMNOPQRSTUVWXYZabcdefghijklmnopqrstuvwxyz0123456789+/".toList

def b64Char (n : Nat) : Char := b64Alphabet.getD n '?'

/-- Base64 with padding, as `Buffer.from(bytes).toString('base64')`
(source lines 140 and 155); bytes are naturals below 256. -/
def base64Encode : List Nat → Str
  | [] => []
  | [a] => [b64Char (a / 4), b64Char (a % 4 * 16), '=', '=']
  | [a, b] => [b64Char (a / 4), b64Char (a % 4 * 16 + b / 16), b64Char (b % 16 * 4), '=']
  | a :: b :: c :: rest =>
    b64Char (a / 4) :: b64Char (a % 4 * 16 + b / 16) ::
      b64Char (b % 16 * 4 + c / 64) :: b64Char (c % 64) :: base64Encode rest

/-- `guessMimeType` (source lines 116-122): return the table entry for the
reference's own extension when the extension exists and is a key (the
`Option.bind` models the short-circuiting `ext && SUPPORTED_FILE_TYPES[ext]`
guard); otherwise fall back to the table entry for `fallbackExt`, defaulting
to `application/octet-stream`. -/
def guessMimeType (reference fallbackExt : Str) : Str :=
  match (getExtension reference).bind SUPPORTED_FILE_TYPES with
  | some m => m
  | none => (SUPPORTED_FILE_TYPES fallbackExt).getD "application/octet-stream".toList

/-- The guarded portion of `loadInlineDataPart` — the `try` block, source
lines 132-157. `response.ok` is status 200-299; the header media type is the
text before the first `;`, trimmed; it overrides the table value when present,
non-empty and different (source line 144). -/
def loadBody (env : Env) (resolvedRef : Str) (ext : Str) : Except Err (Option MsgPart) :=
  if isHttpUrl resolvedRef then do
    let (status, ctypeHdr, bytes) ← env.fetch resolvedRef
    if status < 200 ∨ 300 ≤ status then
      pure none
    else
      let headerMime := ctypeHdr.map (fun h => trimJs (h.takeWhile (· ≠ ';')))
      let guessed := (SUPPORTED_FILE_TYPES ext).getD []
      let mime :=
        match headerMime with
        | some hm => if hm ≠ [] ∧ guessed ≠ hm then hm else guessed
        | none => guessed
      pure (some (.inlineData mime (base64Encode bytes)))
  else do
    let filePath ← resolveLocalPath env resolvedRef
    let data ← env.readFile filePath
    pure (some (.inlineData (guessMimeType filePath ext) (base64Encode data)))

/-- `loadInlineDataPart` (source lines 124-162). The extension derivation of
line 126 — including `fileURLToPath` for a `file://` candidate — runs before
the `try`, so an exception there propagates to the caller. The guard mirrors
line 128's `if (!ext || !SUPPORTED_FILE_TYPES[ext]) return null` (a `null`
extension short-circuits, so the `getD` default is never looked up when the
extension is absent). Any exception inside `loadBody` is caught and becomes
`none` (lines 158-161). -/
def loadInlineDataPart (env : Env) (reference : Str) : Except Err (Option MsgPart) := do
  let resolvedRef := stripWrappingCharacters reference
  let target ←
    if "file://".toList.isPrefixOf resolvedRef then env.fileURLToPath resolvedRef
    else pure resolvedRef
  let ext := getExtension target
  if ext.isNone ∨ (SUPPORTED_FILE_TYPES (ext.getD [])).isNone then pure none
  else
    match loadBody env resolvedRef (ext.getD []) with
    | .ok v => pure v
    | .error _ => pure none

/-- The attachment loop of `buildMessageParts` (source lines 170-176): invoke
the loader once per reference in order, keeping the non-null results. -/
def loadLoop (env : Env) : List Str → Except Err (List MsgPart)
  | [] => .ok []
  | r :: rs => do
    let part ← loadInlineDataPart env r
    let rest ← loadLoop env rs
    pure (match part with | some p => p :: rest | none => rest)

/-- `buildMessageParts` (source lines 164-179). -/
def buildMessageParts (env : Env) (prompt : Str) : Except Err (List MsgPart) := do
  let references ← extractFileReferences env prompt
  if references = [] then
    pure [.text prompt]
  else do
    let inlineParts ← loadLoop env references
    pure (.text prompt :: inlineParts)

/-- `mapErrorToCompletion` (source lines 39-44); modelled errors already are
their message strings. -/
def mapErrorToCompletion (error : Err) : CompletionResult := .err error

/-- The body of the per-prompt `try` (source lines 204-215): build the
message parts, send them, count tokens; `result.text ?? ''` maps an absent
text to the empty string. -/
def promptRoundTrip (env : Env) (i : Nat) (prompt : Str) : Except Err CompletionResult := do
  let messageParts ← buildMessageParts env prompt
  let text ← env.chatSend i messageParts
  let totalTokens ← env.countTokens i messageParts
  pure (.ok (text.getD []) totalTokens)

/-- One iteration of the per-prompt loop (source lines 203-220): any
exception from the iteration becomes an `ErrorCompletion` and the loop
continues with the next prompt. -/
def processPrompt (env : Env) (i : Nat) (prompt : Str) : CompletionResult :=
  match promptRoundTrip env i prompt with
  | .ok c => c
  | .error e => mapErrorToCompletion e

/-- The per-prompt loop of `main`, accumulating one result per prompt. -/
def processAll (env : Env) : Nat → List Str → List CompletionResult
  | _, [] => []
  | i, p :: ps => processPrompt env i p :: processAll env (i + 1) ps

/-- `main` (source lines 181-231). `Env.setup` models the statements of the
outer `try` that sit outside the per-prompt loop (settings read, `GoogleGenAI`
construction, `ai.chats.create`, lines 188-199); when it throws, the outer
`catch` returns a single `ErrorCompletion` (lines 225-230). Neither branch
sets `ModelType`. -/
def main (env : Env) (prompts : List Str) : ConnectorResponse :=
  match env.setup with
  | .error e => { Completions := [mapErrorToCompletion e], ModelType := none }
  | .ok _ => { Completions := processAll env 0 prompts, ModelType := none }

/-!  Specification-side definitions, written from the claims' own words, for
comparison with the source functions above. -/

/-- The media-type rule in the spec's words (claim C4): the extension-based
guess by default, overridden by the server's declared type whenever that
declared value is non-empty and differs from the guess. -/
def specMediaType (guessed declared : Str) : Str :=
  if declared ≠ [] ∧ declared ≠ guessed then declared else guessed

/-- The extension rule in claim C6's words: the substring starting at the
last `.` of the text before the first `?` or `#`, lower-cased, including the
leading dot; `none` when that text has no dot. -/
def claimExtension (s : Str) : Option Str :=
  let base := (s.takeWhile (· ≠ '?')).takeWhile (· ≠ '#')
  let rev := base.reverse
  let after := rev.takeWhile (· ≠ '.')
  if after.length < rev.length then some (lowerStr ('.' :: after.reverse)) else none

/-- Index of the first occurrence of `pat` as a substring of `text`
(claim C3's "order the references are first encountered in the prompt
text"). -/
def firstOccurIdx (pat : Str) : Str → Option Nat
  | [] => if pat = [] then some 0 else none
  | c :: cs =>
    if pat.isPrefixOf (c :: cs) then some 0 else (firstOccurIdx pat cs).map (· + 1)

/-- The candidates pass 1 keeps, in match order and with duplicates (the
per-match kept-or-dropped decision of source lines 94-100, without the
deduplicating set). -/
def pass1Kept (env : Env) : List Str → Except Err (List Str)
  | [] => .ok []
  | rawMatch :: ms => do
    let candidate := stripWrappingCharacters rawMatch
    let target ←
      if "file://".toList.isPrefixOf candidate then env.fileURLToPath candidate
      else pure candidate
    let rest ← pass1Kept env ms
    pure (if isSupportedRef target then candidate :: rest else rest)

/-- The candidates pass 2 keeps, in token order and with duplicates (the
per-token decision of source lines 102-111, without the deduplicating
set). -/
def pass2Kept : List Str → List Str
  | [] => []
  | rawToken :: ts =>
    let candidate := stripWrappingCharacters rawToken
    if candidate = [] ∨ isHttpUrl candidate ∨ isFileUrl candidate then pass2Kept ts
    else if isSupportedRef candidate then candidate :: pass2Kept ts
    else pass2Kept ts

/-- First-occurrence deduplication, the effect of collecting a list into a JS
`Set` and back into an array. -/
def dedupKeepFirst (l : List Str) : List Str := l.foldl insertIfAbsent []

/-!  Concrete environments used by example theorems: a Node-faithful
`fileURLToPath`, one fetchable remote png, one readable local pdf, a
collaborator that always replies, and variants with failing collaborators. -/

def envDemo : Env where
  fileURLToPath := nodeFileURLToPath
  fetch := fun r =>
    if r = "http://e.com/b.png".toList then .ok (200, some "image/png".toList, [2])
    else .error "network error"
  readFile := fun p => if p = "/w/a.pdf".toList then .ok [1] else .error "ENOENT"
  homedir := "/home/u".toList
  cwd := "/w".toList
  setup := .ok ()
  chatSend := fun _ _ => .ok (some "reply".toList)
  countTokens := fun _ _ => .ok (some 7)

/-- `envDemo` with a batch setup that throws. -/
def envSetupFail : Env :=
  { envDemo with setup := .error "invalid api key" }

/-!  Helper lemmas about characters. -/

/-- The uppercase ASCII letters, the only characters `jsToLower` changes. -/
def upperAZ : List Char :=
  ['A','B','C','D','E','F','G','H','I','J','K','L','M',
   'N','O','P','Q','R','S','T','U','V','W','X','Y','Z']

theorem jsToLower_of_not_upper (c : Char) (h : c ∉ upperAZ) : jsToLower c = c := by
  unfold jsToLower
  split <;> simp_all [upperAZ]

theorem jsToLower_eq_qm (c : Char) : jsToLower c = '?' ↔ c = '?' := by
  by_cases h : c ∈ upperAZ
  · fin_cases h <;> decide
  · rw [jsToLower_of_not_upper c h]

theorem jsToLower_eq_hash (c : Char) : jsToLower c = '#' ↔ c = '#' := by
  by_cases h : c ∈ upperAZ
  · fin_cases h <;> decide
  · rw [jsToLower_of_not_upper c h]

theorem jsToLower_eq_slash (c : Char) : jsToLower c = '/' ↔ c = '/' := by
  by_cases h : c ∈ upperAZ
  · fin_cases h <;> decide
  · rw [jsToLower_of_not_upper c h]

theorem jsToLower_eq_dot (c : Char) : jsToLower c = '.' ↔ c = '.' := by
  by_cases h : c ∈ upperAZ
  · fin_cases h <;> decide
  · rw [jsToLower_of_not_upper c h]

theorem jsToLower_idem (c : Char) : jsToLower (jsToLower c) = jsToLower c := by
  by_cases h : c ∈ upperAZ
  · fin_cases h <;> decide
  · simp [jsToLower_of_not_upper c h]

theorem jsToLower_of_ws (c : Char) (h : isJsWhitespace c = true) : jsToLower c = c := by
  apply jsToLower_of_not_upper
  intro hmem
  fin_cases hmem <;> simp_all [isJsWhitespace]

theorem lowerStr_idem (s : Str) : lowerStr (lowerStr s) = lowerStr s := by
  unfold lowerStr
  rw [List.map_map]
  exact List.map_congr_left fun c _ => jsToLower_idem c

/-!  Helper lemmas about `dropWhile` and list shapes. -/

theorem head?_mem {α : Type} {l : List α} {c : α} (h : l.head? = some c) : c ∈ l := by
  cases l <;> simp_all

theorem head_dropWhile_not {α : Type} {p : α → Bool} {l : List α} {c : α}
    (h : (l.dropWhile p).head? = some c) : p c = false := by
  induction l with
  | nil => simp [List.dropWhile] at h
  | cons a as ih =>
    rw [List.dropWhile_cons] at h
    by_cases hpa : p a = true
    · simp [hpa] at h; exact ih h
    · simp [hpa] at h
      subst h
      exact eq_false_of_ne_true hpa

theorem dropWhile_dropWhile {α : Type} (p : α → Bool) (l : List α) :
    (l.dropWhile p).dropWhile p = l.dropWhile p := by
  cases h : l.dropWhile p with
  | nil => simp
  | cons a as =>
    have ha : p a = false := head_dropWhile_not (l := l) (by rw [h]; rfl)
    rw [List.dropWhile_cons, ha]
    simp

theorem dropWhile_eq_self_of_head {α : Type} (p : α → Bool) (l : List α)
    (h : ∀ c, l.head? = some c → p c = false) : l.dropWhile p = l := by
  cases l with
  | nil => rfl
  | cons a as => rw [List.dropWhile_cons, h a rfl]; simp

theorem isPrefix_head?_eq {α : Type} {l₁ l₂ : List α} (h : l₁ <+: l₂) (hne : l₁ ≠ []) :
    l₂.head? = l₁.head? := by
  obtain ⟨t, rfl⟩ := h
  cases l₁ with
  | nil => exact absurd rfl hne
  | cons a l => rfl

/-!  `stripWrappingCharacters`: membership and idempotence on
whitespace-free strings. -/

theorem mem_trimJs {c : Char} {s : Str} (h : c ∈ trimJs s) : c ∈ s := by
  unfold trimJs at h
  rw [List.mem_reverse] at h
  have h2 := (List.dropWhile_sublist _).subset h
  rw [List.mem_reverse] at h2
  exact (List.dropWhile_sublist _).subset h2

theorem mem_strip {c : Char} {s : Str} (h : c ∈ stripWrappingCharacters s) : c ∈ s := by
  unfold stripWrappingCharacters dropTrailingWrap at h
  rw [List.mem_reverse] at h
  have h2 := (List.dropWhile_sublist _).subset h
  rw [List.mem_reverse] at h2
  exact mem_trimJs ((List.dropWhile_sublist _).subset h2)

theorem trimJs_eq_of_noWs (s : Str) (hws : ∀ c ∈ s, isJsWhitespace c = false) :
    trimJs s = s := by
  unfold trimJs
  rw [dropWhile_eq_self_of_head _ _ fun c hc => hws c (head?_mem hc)]
  rw [dropWhile_eq_self_of_head _ _ fun c hc => hws c (List.mem_reverse.mp (head?_mem hc))]
  exact List.reverse_reverse s

theorem strip_fix_of_noWs (s : Str) (hws : ∀ c ∈ s, isJsWhitespace c = false) :
    stripWrappingCharacters (stripWrappingCharacters s) = stripWrappingCharacters s := by
  have hrdef : stripWrappingCharacters s
      = ((s.dropWhile isLeadingWrapper).reverse.dropWhile isTrailingStrip).reverse := by
    unfold stripWrappingCharacters dropTrailingWrap
    rw [trimJs_eq_of_noWs s hws]
  have hnows : ∀ c ∈ stripWrappingCharacters s, isJsWhitespace c = false :=
    fun c hc => hws c (mem_strip hc)
  have hpre : stripWrappingCharacters s <+: s.dropWhile isLeadingWrapper := by
    apply List.reverse_suffix.mp
    rw [hrdef, List.reverse_reverse]
    exact List.dropWhile_suffix _
  have hhead : ∀ c, (stripWrappingCharacters s).head? = some c → isLeadingWrapper c = false := by
    intro c hc
    have hne : stripWrappingCharacters s ≠ [] := by
      intro he; rw [he] at hc; exact Option.noConfusion hc
    have hh := isPrefix_head?_eq hpre hne
    exact head_dropWhile_not (l := s) (p := isLeadingWrapper) (hh ▸ hc)
  have hstep : ∀ t : Str,
      stripWrappingCharacters t = dropTrailingWrap ((trimJs t).dropWhile isLeadingWrapper) :=
    fun _ => rfl
  rw [hstep (stripWrappingCharacters s), trimJs_eq_of_noWs _ hnows,
    dropWhile_eq_self_of_head _ _ hhead, hrdef]
  show ((((s.dropWhile isLeadingWrapper).reverse.dropWhile isTrailingStrip).reverse).reverse.dropWhile
      isTrailingStrip).reverse = _
  rw [List.reverse_reverse, dropWhile_dropWhile]

/-!  Lower-casing commutes with the extension computation (case
insensitivity of the type classifier). -/

theorem takeWhile_ne_lower (d : Char) (hiff : ∀ c, jsToLower c = d ↔ c = d) (l : Str) :
    (lowerStr l).takeWhile (· ≠ d) = lowerStr (l.takeWhile (· ≠ d)) := by
  unfold lowerStr
  rw [List.takeWhile_map]
  have hp : ((fun x => decide (x ≠ d)) ∘ jsToLower) = (fun x : Char => decide (x ≠ d)) :=
    funext fun c => decide_eq_decide.mpr (not_congr (hiff c))
  rw [hp]

theorem dropWhile_eq_lower (d : Char) (hiff : ∀ c, jsToLower c = d ↔ c = d) (l : Str) :
    (lowerStr l).dropWhile (· = d) = lowerStr (l.dropWhile (· = d)) := by
  unfold lowerStr
  rw [List.dropWhile_map]
  have hp : ((fun x => decide (x = d)) ∘ jsToLower) = (fun x : Char => decide (x = d)) :=
    funext fun c => decide_eq_decide.mpr (hiff c)
  rw [hp]

theorem lowerStr_reverse (l : Str) : (lowerStr l).reverse = lowerStr l.reverse := by
  unfold lowerStr
  exact (List.map_reverse jsToLower l).symm

theorem lowerStr_eq_dotdot (l : Str) : lowerStr l = ['.', '.'] ↔ l = ['.', '.'] := by
  match l with
  | [] => simp [lowerStr]
  | [a] => simp [lowerStr]
  | [a, b] => simp [lowerStr, jsToLower_eq_dot]
  | a :: b :: c :: t => simp [lowerStr]

theorem extnamePosix_lower (p : Str) : extnamePosix (lowerStr p) = lowerStr (extnamePosix p) := by
  unfold extnamePosix
  dsimp only
  rw [lowerStr_reverse, dropWhile_eq_lower '/' jsToLower_eq_slash,
    takeWhile_ne_lower '/' jsToLower_eq_slash, takeWhile_ne_lower '.' jsToLower_eq_dot]
  simp only [lowerStr, List.length_map]
  have hdd : ∀ X : Str, (List.map jsToLower X = ['.', '.']) ↔ X = ['.', '.'] :=
    fun X => lowerStr_eq_dotdot X
  simp only [ne_eq, hdd]
  split_ifs
  · simp only [List.map_cons, List.map_reverse]
    rfl
  · rfl

theorem getExtension_lower (s : Str) : getExtension (lowerStr s) = getExtension s := by
  unfold getExtension
  dsimp only
  rw [takeWhile_ne_lower '?' jsToLower_eq_qm, takeWhile_ne_lower '#' jsToLower_eq_hash,
    extnamePosix_lower]
  have hnil : (lowerStr (extnamePosix ((s.takeWhile (· ≠ '?')).takeWhile (· ≠ '#'))) = [])
      ↔ extnamePosix ((s.takeWhile (· ≠ '?')).takeWhile (· ≠ '#')) = [] := by
    simp [lowerStr]
  simp only [hnil]
  split_ifs
  · rfl
  · rw [lowerStr_idem]

/-!  Shape lemmas for the per-prompt loop. -/

theorem processAll_length (env : Env) : ∀ (ps : List Str) (i : Nat),
    (processAll env i ps).length = ps.length
  | [], _ => rfl
  | _ :: ps, i => by simp [processAll, processAll_length env ps (i + 1)]

theorem processAll_getElem? (env : Env) : ∀ (ps : List Str) (i k : Nat) (p : Str),
    ps[i]? = some p → (processAll env k ps)[i]? = some (processPrompt env (k + i) p)
  | [], i, _, _ => by simp
  | q :: ps, 0, k, p => by
    intro h
    simp only [List.getElem?_cons_zero, Option.some.injEq] at h
    subst h
    simp [processAll]
  | q :: ps, i + 1, k, p => by
    intro h
    simp only [List.getElem?_cons_succ] at h
    have hrec := processAll_getElem? env ps i (k + 1) p h
    have harith : k + 1 + i = k + (i + 1) := by omega
    rw [harith] at hrec
    simpa [processAll] using hrec

/-!  The two passes as first-occurrence deduplication of their kept
candidates. -/

theorem ok_bind {α β : Type} (a : α) (f : α → Except Err β) :
    (Except.ok a >>= f) = f a := rfl

theorem error_bind {α β : Type} (e : Err) (f : α → Except Err β) :
    ((Except.error e : Except Err α) >>= f) = Except.error e := rfl

theorem pure_bind_ex {α β : Type} (a : α) (f : α → Except Err β) :
    ((pure a : Except Err α) >>= f) = f a := rfl

theorem pass1_eq_kept (env : Env) : ∀ (ms : List Str) (acc : List Str),
    pass1 env acc ms =
      match pass1Kept env ms with
      | .ok ks => .ok (ks.foldl insertIfAbsent acc)
      | .error e => .error e
  | [], acc => rfl
  | rawMatch :: ms, acc => by
    simp only [pass1, pass1Kept]
    by_cases hpre : "file://".toList.isPrefixOf (stripWrappingCharacters rawMatch) = true
    · rw [if_pos hpre, if_pos hpre]
      cases hconv : env.fileURLToPath (stripWrappingCharacters rawMatch) with
      | error e => rfl
      | ok t =>
        simp only [ok_bind]
        rw [pass1_eq_kept env ms]
        by_cases hsup : isSupportedRef t = true
        · simp only [if_pos hsup]
          cases hks : pass1Kept env ms <;> rfl
        · simp only [if_neg hsup]
          cases hks : pass1Kept env ms <;> rfl
    · rw [if_neg hpre, if_neg hpre]
      simp only [pure_bind_ex]
      rw [pass1_eq_kept env ms]
      by_cases hsup : isSupportedRef (stripWrappingCharacters rawMatch) = true
      · simp only [if_pos hsup]
        cases hks : pass1Kept env ms <;> rfl
      · simp only [if_neg hsup]
        cases hks : pass1Kept env ms <;> rfl

theorem pass2_eq_kept : ∀ (ts : List Str) (acc : List Str),
    pass2 acc ts = (pass2Kept ts).foldl insertIfAbsent acc
  | [], acc => rfl
  | rawToken :: ts, acc => by
    simp only [pass2, pass2Kept]
    by_cases hskip : stripWrappingCharacters rawToken = []
        ∨ isHttpUrl (stripWrappingCharacters rawToken) = true
        ∨ isFileUrl (stripWrappingCharacters rawToken) = true
    · rw [if_pos hskip, if_pos hskip]
      exact pass2_eq_kept ts acc
    · rw [if_neg hskip, if_neg hskip]
      by_cases hsup : isSupportedRef (stripWrappingCharacters rawToken) = true
      · rw [if_pos hsup, if_pos hsup]
        rw [pass2_eq_kept ts]
        rfl
      · rw [if_neg hsup, if_neg hsup]
        exact pass2_eq_kept ts acc

theorem extract_eq_kept (env : Env) (text : Str) :
    extractFileReferences env text =
      match pass1Kept env (remoteMatches text) with
      | .ok k1 => .ok (dedupKeepFirst (k1 ++ pass2Kept (splitWs text)))
      | .error e => .error e := by
  unfold extractFileReferences
  rw [pass1_eq_kept env (remoteMatches text) []]
  cases hks : pass1Kept env (remoteMatches text) with
  | error e => rfl
  | ok k1 =>
    show Except.ok (pass2 (k1.foldl insertIfAbsent []) (splitWs text)) = _
    rw [pass2_eq_kept (splitWs text) (k1.foldl insertIfAbsent [])]
    exact congrArg Except.ok
      (List.foldl_append insertIfAbsent [] k1 (pass2Kept (splitWs text))).symm

theorem insertIfAbsent_nodup (acc : List Str) (x : Str) (h : acc.Nodup) :
    (insertIfAbsent acc x).Nodup := by
  unfold insertIfAbsent
  split_ifs with hx
  · exact h
  · simp [List.nodup_append, h, hx]

theorem foldl_insert_nodup : ∀ (l acc : List Str), acc.Nodup → (l.foldl insertIfAbsent acc).Nodup
  | [], _, h => h
  | x :: l, acc, h => foldl_insert_nodup l (insertIfAbsent acc x) (insertIfAbsent_nodup acc x h)

theorem dedupKeepFirst_nodup (l : List Str) : (dedupKeepFirst l).Nodup :=
  foldl_insert_nodup l [] List.nodup_nil

theorem nodup_count_one : ∀ (l : List Str) (r : Str), l.Nodup → r ∈ l → l.count r = 1
  | [], _, _, hmem => by cases hmem
  | a :: l, r, hnd, hmem => by
    rcases List.mem_cons.mp hmem with rfl | hm
    · have hna : r ∉ l := (List.nodup_cons.mp hnd).1
      rw [List.count_cons_self, List.count_eq_zero.mpr hna]
    · have hne : a ≠ r := by
        rintro rfl
        exact (List.nodup_cons.mp hnd).1 hm
      rw [List.count_cons_of_ne (Ne.symm hne)]
      exact nodup_count_one l r (List.nodup_cons.mp hnd).2 hm

/-!  URL classification heads. -/

theorem head_lower (s : Str) : (lowerStr s).head? = s.head?.map jsToLower := by
  cases s <;> rfl

theorem http_head (s : Str) (h : isHttpUrl s = true) : (lowerStr s).head? = some 'h' := by
  unfold isHttpUrl at h
  dsimp only at h
  by_cases h1 : "https:".toList.isPrefixOf (lowerStr s) = true
  · have hp := List.isPrefixOf_iff_prefix.mp h1
    rw [isPrefix_head?_eq hp (by decide)]
    rfl
  · by_cases h2 : "http:".toList.isPrefixOf (lowerStr s) = true
    · have hp := List.isPrefixOf_iff_prefix.mp h2
      rw [isPrefix_head?_eq hp (by decide)]
      rfl
    · rw [if_neg h1, if_neg h2] at h
      simp at h

theorem http_not_file (s : Str) (h : isHttpUrl s = true) :
    ("file://".toList.isPrefixOf s) = false := by
  by_contra hf
  rw [Bool.not_eq_false] at hf
  have hpf := List.isPrefixOf_iff_prefix.mp hf
  have hhead : s.head? = some 'f' := by
    rw [isPrefix_head?_eq hpf (by decide)]
    rfl
  have hh := http_head s h
  rw [head_lower, hhead] at hh
  exact absurd hh (by decide)

/-!  The shape of successfully produced local attachments. -/

theorem loadBody_local_shape (env : Env) (rr ext mt d : Str)
    (hhttp : isHttpUrl rr = false)
    (hb : loadBody env rr ext = .ok (some (.inlineData mt d))) :
    ∃ fp bytes, resolveLocalPath env rr = .ok fp ∧ env.readFile fp = .ok bytes ∧
      mt = guessMimeType fp ext ∧ d = base64Encode bytes := by
  simp only [loadBody] at hb
  rw [if_neg (by simp [hhttp])] at hb
  cases hrl : resolveLocalPath env rr with
  | error e => rw [hrl] at hb; exact absurd hb (by simp [error_bind])
  | ok fp =>
    rw [hrl] at hb
    simp only [ok_bind] at hb
    cases hrd : env.readFile fp with
    | error e => rw [hrd] at hb; exact absurd hb (by simp [error_bind])
    | ok bytes =>
      rw [hrd] at hb
      simp only [ok_bind] at hb
      have h2 := Option.some.inj (Except.ok.inj hb)
      refine ⟨fp, bytes, rfl, hrd, ?_, ?_⟩
      · injection h2 with a b; exact a.symm
      · injection h2 with a b; exact b.symm

theorem load_local_shape (env : Env) (r mt d : Str)
    (hhttp : isHttpUrl (stripWrappingCharacters r) = false)
    (h : loadInlineDataPart env r = .ok (some (.inlineData mt d))) :
    ∃ fp ext bytes, (SUPPORTED_FILE_TYPES ext).isSome = true ∧
      resolveLocalPath env (stripWrappingCharacters r) = .ok fp ∧
      env.readFile fp = .ok bytes ∧
      mt = guessMimeType fp ext ∧ d = base64Encode bytes := by
  simp only [loadInlineDataPart] at h
  by_cases hpre : "file://".toList.isPrefixOf (stripWrappingCharacters r) = true
  · rw [if_pos hpre] at h
    cases hcv : env.fileURLToPath (stripWrappingCharacters r) with
    | error e => rw [hcv] at h; exact absurd h (by simp [error_bind])
    | ok t =>
      rw [hcv] at h
      simp only [ok_bind] at h
      by_cases hc : (getExtension t).isNone = true
          ∨ (SUPPORTED_FILE_TYPES ((getExtension t).getD [])).isNone = true
      · rw [if_pos hc] at h
        exact absurd (Except.ok.inj h) (by simp)
      · rw [if_neg hc] at h
        have hsup : (SUPPORTED_FILE_TYPES ((getExtension t).getD [])).isSome = true := by
          cases ho : SUPPORTED_FILE_TYPES ((getExtension t).getD []) with
          | none => exact absurd (Or.inr (by rw [ho]; rfl)) hc
          | some m => rfl
        cases hb : loadBody env (stripWrappingCharacters r) ((getExtension t).getD []) with
        | error e =>
          rw [hb] at h
          exact absurd (Except.ok.inj h) (by simp)
        | ok v =>
          rw [hb] at h
          have hv : v = some (.inlineData mt d) := Except.ok.inj h
          obtain ⟨fp, bytes, h1, h2, h3, h4⟩ :=
            loadBody_local_shape env (stripWrappingCharacters r)
              ((getExtension t).getD []) mt d hhttp (hv ▸ hb)
          exact ⟨fp, (getExtension t).getD [], bytes, hsup, h1, h2, h3, h4⟩
  · rw [if_neg hpre] at h
    simp only [pure_bind_ex] at h
    by_cases hc : (getExtension (stripWrappingCharacters r)).isNone = true
        ∨ (SUPPORTED_FILE_TYPES
            ((getExtension (stripWrappingCharacters r)).getD [])).isNone = true
    · rw [if_pos hc] at h
      exact absurd (Except.ok.inj h) (by simp)
    · rw [if_neg hc] at h
      have hsup : (SUPPORTED_FILE_TYPES
          ((getExtension (stripWrappingCharacters r)).getD [])).isSome = true := by
        cases ho : SUPPORTED_FILE_TYPES
            ((getExtension (stripWrappingCharacters r)).getD []) with
        | none => exact absurd (Or.inr (by rw [ho]; rfl)) hc
        | some m => rfl
      cases hb : loadBody env (stripWrappingCharacters r)
          ((getExtension (stripWrappingCharacters r)).getD []) with
      | error e =>
        rw [hb] at h
        exact absurd (Except.ok.inj h) (by simp)
      | ok v =>
        rw [hb] at h
        have hv : v = some (.inlineData mt d) := Except.ok.inj h
        obtain ⟨fp, bytes, h1, h2, h3, h4⟩ :=
          loadBody_local_shape env (stripWrappingCharacters r)
            ((getExtension (stripWrappingCharacters r)).getD []) mt d hhttp (hv ▸ hb)
        exact ⟨fp, (getExtension (stripWrappingCharacters r)).getD [], bytes,
          hsup, h1, h2, h3, h4⟩

/-!  Table values. -/

theorem SUPPORTED_mem_values (e m : Str) (h : SUPPORTED_FILE_TYPES e = some m) :
    m ∈ supportedMimeValues := by
  unfold SUPPORTED_FILE_TYPES at h
  by_cases h1 : e = ".pdf".toList
  · rw [if_pos h1] at h; injection h with hx; subst hx; decide
  · rw [if_neg h1] at h
    by_cases h2 : e = ".png".toList
    · rw [if_pos h2] at h; injection h with hx; subst hx; decide
    · rw [if_neg h2] at h
      by_cases h3 : e = ".jpg".toList
      · rw [if_pos h3] at h; injection h with hx; subst hx; decide
      · rw [if_neg h3] at h
        by_cases h4 : e = ".jpeg".toList
        · rw [if_pos h4] at h; injection h with hx; subst hx; decide
        · rw [if_neg h4] at h
          by_cases h5 : e = ".gif".toList
          · rw [if_pos h5] at h; injection h with hx; subst hx; decide
          · rw [if_neg h5] at h
            by_cases h6 : e = ".bmp".toList
            · rw [if_pos h6] at h; injection h with hx; subst hx; decide
            · rw [if_neg h6] at h
              by_cases h7 : e = ".webp".toList
              · rw [if_pos h7] at h; injection h with hx; subst hx; decide
              · rw [if_neg h7] at h
                by_cases h8 : e = ".svg".toList
                · rw [if_pos h8] at h; injection h with hx; subst hx; decide
                · rw [if_neg h8] at h
                  by_cases h9 : e = ".heic".toList
                  · rw [if_pos h9] at h; injection h with hx; subst hx; decide
                  · rw [if_neg h9] at h
                    by_cases h10 : e = ".heif".toList
                    · rw [if_pos h10] at h; injection h with hx; subst hx; decide
                    · rw [if_neg h10] at h
                      exact Option.noConfusion h

theorem values_ne_octet (m : Str) (h : m ∈ supportedMimeValues) :
    m ≠ "application/octet-stream".toList := by
  simp only [supportedMimeValues, List.mem_cons, List.not_mem_nil, or_false] at h
  rcases h with rfl | rfl | rfl | rfl | rfl | rfl | rfl | rfl | rfl <;> decide

theorem guessMimeType_mem (fp ext : Str) (h : (SUPPORTED_FILE_TYPES ext).isSome = true) :
    guessMimeType fp ext ∈ supportedMimeValues := by
  obtain ⟨m, hm⟩ := Option.isSome_iff_exists.mp h
  unfold guessMimeType
  cases hgb : (getExtension fp).bind SUPPORTED_FILE_TYPES with
  | some m2 =>
    obtain ⟨e2, he2, hs2⟩ := Option.bind_eq_some.mp hgb
    exact SUPPORTED_mem_values e2 m2 hs2
  | none =>
    rw [hm]
    simpa using SUPPORTED_mem_values ext m hm

/-!  Whitespace-freeness of scanner output, and exception-freeness of the
guarded loader. -/

theorem mem_pattern_not_ws {pat : Str} (hall : (pat.all fun d => !isJsWhitespace d) = true)
    {c : Char} (hmem : c ∈ pat) (hw : isJsWhitespace c = true) : False := by
  have h2 := List.all_eq_true.mp hall c hmem
  rw [hw] at h2
  exact absurd h2 (by decide)

theorem urlMatchAt_shape (l pre rest : Str) (h : urlMatchAt l = some (pre, rest)) :
    (lowerStr pre = "https://".toList ∨ lowerStr pre = "http://".toList ∨
      lowerStr pre = "file://".toList) := by
  unfold urlMatchAt at h
  by_cases h1 : lowerStr (l.take 8) = "https://".toList
  · rw [if_pos h1] at h
    obtain ⟨hp, _⟩ := Prod.mk.inj (Option.some.inj h)
    exact Or.inl (hp ▸ h1)
  · rw [if_neg h1] at h
    by_cases h2 : lowerStr (l.take 7) = "http://".toList
    · rw [if_pos h2] at h
      obtain ⟨hp, _⟩ := Prod.mk.inj (Option.some.inj h)
      exact Or.inr (Or.inl (hp ▸ h2))
    · rw [if_neg h2] at h
      by_cases h3 : lowerStr (l.take 7) = "file://".toList
      · rw [if_pos h3] at h
        obtain ⟨hp, _⟩ := Prod.mk.inj (Option.some.inj h)
        exact Or.inr (Or.inr (hp ▸ h3))
      · rw [if_neg h3] at h
        exact Option.noConfusion h

theorem pre_noWs (pre : Str)
    (h : lowerStr pre = "https://".toList ∨ lowerStr pre = "http://".toList ∨
      lowerStr pre = "file://".toList) :
    ∀ c ∈ pre, isJsWhitespace c = false := by
  intro c hc
  by_contra hw
  rw [Bool.not_eq_false] at hw
  have hmem : jsToLower c ∈ lowerStr pre := List.mem_map_of_mem jsToLower hc
  rw [jsToLower_of_ws c hw] at hmem
  rcases h with h | h | h <;> rw [h] at hmem
  · exact mem_pattern_not_ws (by decide) hmem hw
  · exact mem_pattern_not_ws (by decide) hmem hw
  · exact mem_pattern_not_ws (by decide) hmem hw

theorem stop_of_ws {c : Char} (h : isJsWhitespace c = true) : isStopChar c = true := by
  unfold isStopChar
  rw [h]
  rfl

theorem run_not_ws {rest : Str} {c : Char}
    (h : c ∈ rest.takeWhile (fun ch => !isStopChar ch)) : isJsWhitespace c = false := by
  have h2 := List.mem_takeWhile_imp h
  by_contra hw
  rw [Bool.not_eq_false] at hw
  rw [stop_of_ws hw] at h2
  exact absurd h2 (by decide)

theorem tryMatch_some (prev : Option Char) (l : Str) (x : Str × Str)
    (h : tryMatch prev l = some x) : urlMatchAt l = some x := by
  cases prev with
  | none => exact h
  | some pc =>
    simp only [tryMatch] at h
    by_cases hw : isWordChar pc = true
    · rw [if_pos hw] at h
      exact Option.noConfusion h
    · rw [if_neg hw] at h
      exact h

theorem remoteMatchesAux_noWs : ∀ (fuel : Nat) (prev : Option Char) (l m : Str),
    m ∈ remoteMatchesAux fuel prev l → ∀ c ∈ m, isJsWhitespace c = false
  | 0, _, _, m => by simp [remoteMatchesAux]
  | _ + 1, _, [], m => by simp [remoteMatchesAux]
  | fuel + 1, prev, a :: cs, m => by
    simp only [remoteMatchesAux]
    cases htm : tryMatch prev (a :: cs) with
    | none =>
      intro hm
      exact remoteMatchesAux_noWs fuel (some a) cs m hm
    | some pr =>
      obtain ⟨pre, rest⟩ := pr
      simp only []
      by_cases hrun : rest.takeWhile (fun ch => !isStopChar ch) = []
      · rw [if_pos hrun]
        intro hm
        exact remoteMatchesAux_noWs fuel (some a) cs m hm
      · rw [if_neg hrun]
        intro hm
        rcases List.mem_cons.mp hm with heq | hm2
        · subst heq
          intro c hc
          rcases List.mem_append.mp hc with hc1 | hc2
          · exact pre_noWs pre (urlMatchAt_shape (a :: cs) pre rest
              (tryMatch_some prev (a :: cs) (pre, rest) htm)) c hc1
          · exact run_not_ws hc2
        · exact remoteMatchesAux_noWs fuel _ _ m hm2

theorem splitWsAux_noWs : ∀ (fuel : Nat) (s t : Str),
    t ∈ splitWsAux fuel s → ∀ c ∈ t, isJsWhitespace c = false
  | 0, s, t => by simp [splitWsAux]
  | fuel + 1, s, t => by
    simp only [splitWsAux]
    by_cases hr : s.dropWhile isJsWhitespace = []
    · rw [if_pos hr]
      simp
    · rw [if_neg hr]
      intro ht
      rcases List.mem_cons.mp ht with heq | hm
      · subst heq
        intro c hc
        have h2 := List.mem_takeWhile_imp hc
        cases hws : isJsWhitespace c
        · rfl
        · rw [hws] at h2
          exact absurd h2 (by decide)
      · exact splitWsAux_noWs fuel _ t hm

theorem filePre_isFileUrl (s : Str) (h : "file://".toList.isPrefixOf s = true) :
    isFileUrl s = true := by
  unfold isFileUrl
  have hp := List.isPrefixOf_iff_prefix.mp h
  have hp2 : lowerStr "file://".toList <+: lowerStr s := List.IsPrefix.map jsToLower hp
  exact List.isPrefixOf_iff_prefix.mpr (List.IsPrefix.trans (by decide) hp2)

theorem load_ok_of_fix (env : Env) (r : Str)
    (hfix : stripWrappingCharacters r = r)
    (hfile : "file://".toList.isPrefixOf r = true → ∃ p, env.fileURLToPath r = .ok p) :
    ∃ v, loadInlineDataPart env r = .ok v := by
  simp only [loadInlineDataPart, hfix]
  by_cases hpre : "file://".toList.isPrefixOf r = true
  · obtain ⟨p, hp⟩ := hfile hpre
    rw [if_pos hpre, hp]
    simp only [ok_bind]
    by_cases hc : (getExtension p).isNone = true
        ∨ (SUPPORTED_FILE_TYPES ((getExtension p).getD [])).isNone = true
    · rw [if_pos hc]
      exact ⟨none, rfl⟩
    · rw [if_neg hc]
      cases hb : loadBody env r ((getExtension p).getD []) with
      | ok v => exact ⟨v, rfl⟩
      | error e => exact ⟨none, rfl⟩
  · rw [if_neg hpre]
    simp only [pure_bind_ex]
    by_cases hc : (getExtension r).isNone = true
        ∨ (SUPPORTED_FILE_TYPES ((getExtension r).getD [])).isNone = true
    · rw [if_pos hc]
      exact ⟨none, rfl⟩
    · rw [if_neg hc]
      cases hb : loadBody env r ((getExtension r).getD []) with
      | ok v => exact ⟨v, rfl⟩
      | error e => exact ⟨none, rfl⟩

theorem pass1_refs_facts (env : Env) : ∀ (ms acc refs : List Str),
    pass1 env acc ms = .ok refs → ∀ r ∈ refs,
      r ∈ acc ∨ ∃ m ∈ ms, r = stripWrappingCharacters m ∧
        ("file://".toList.isPrefixOf r = true → ∃ p, env.fileURLToPath r = .ok p)
  | [], acc, refs => by
    intro h r hr
    have h2 : acc = refs := Except.ok.inj h
    exact Or.inl (h2 ▸ hr)
  | rawMatch :: ms, acc, refs => by
    intro h r hr
    simp only [pass1] at h
    by_cases hpre : "file://".toList.isPrefixOf (stripWrappingCharacters rawMatch) = true
    · rw [if_pos hpre] at h
      cases hcv : env.fileURLToPath (stripWrappingCharacters rawMatch) with
      | error e =>
        rw [hcv] at h
        exact absurd h (by simp [error_bind])
      | ok t =>
        rw [hcv] at h
        simp only [ok_bind] at h
        rcases pass1_refs_facts env ms _ refs h r hr with hacc | ⟨m2, hm2, he, hf⟩
        · by_cases hsup : isSupportedRef t = true
          · rw [if_pos hsup] at hacc
            unfold insertIfAbsent at hacc
            by_cases hmemacc : stripWrappingCharacters rawMatch ∈ acc
            · rw [if_pos hmemacc] at hacc
              exact Or.inl hacc
            · rw [if_neg hmemacc] at hacc
              rcases List.mem_append.mp hacc with h1 | h1
              · exact Or.inl h1
              · have he2 : r = stripWrappingCharacters rawMatch := List.mem_singleton.mp h1
                subst he2
                exact Or.inr ⟨rawMatch, List.mem_cons_self _ _, rfl, fun _ => ⟨t, hcv⟩⟩
          · rw [if_neg hsup] at hacc
            exact Or.inl hacc
        · exact Or.inr ⟨m2, List.mem_cons_of_mem _ hm2, he, hf⟩
    · rw [if_neg hpre] at h
      simp only [pure_bind_ex] at h
      rcases pass1_refs_facts env ms _ refs h r hr with hacc | ⟨m2, hm2, he, hf⟩
      · by_cases hsup : isSupportedRef (stripWrappingCharacters rawMatch) = true
        · rw [if_pos hsup] at hacc
          unfold insertIfAbsent at hacc
          by_cases hmemacc : stripWrappingCharacters rawMatch ∈ acc
          · rw [if_pos hmemacc] at hacc
            exact Or.inl hacc
          · rw [if_neg hmemacc] at hacc
            rcases List.mem_append.mp hacc with h1 | h1
            · exact Or.inl h1
            · have he2 : r = stripWrappingCharacters rawMatch := List.mem_singleton.mp h1
              subst he2
              exact Or.inr ⟨rawMatch, List.mem_cons_self _ _, rfl,
                fun hf2 => absurd hf2 hpre⟩
        · rw [if_neg hsup] at hacc
          exact Or.inl hacc
      · exact Or.inr ⟨m2, List.mem_cons_of_mem _ hm2, he, hf⟩

theorem pass2_mem : ∀ (ts acc : List Str) (r : Str), r ∈ pass2 acc ts →
    r ∈ acc ∨ ∃ tk ∈ ts, r = stripWrappingCharacters tk ∧ isFileUrl r = false
  | [], _, _ => fun h => Or.inl h
  | rawToken :: ts, acc, r => by
    intro h
    simp only [pass2] at h
    by_cases hskip : stripWrappingCharacters rawToken = []
        ∨ isHttpUrl (stripWrappingCharacters rawToken) = true
        ∨ isFileUrl (stripWrappingCharacters rawToken) = true
    · rw [if_pos hskip] at h
      rcases pass2_mem ts acc r h with h1 | ⟨tk, htk, he, hf⟩
      · exact Or.inl h1
      · exact Or.inr ⟨tk, List.mem_cons_of_mem _ htk, he, hf⟩
    · rw [if_neg hskip] at h
      by_cases hsup : isSupportedRef (stripWrappingCharacters rawToken) = true
      · rw [if_pos hsup] at h
        rcases pass2_mem ts _ r h with h1 | ⟨tk, htk, he, hf⟩
        · unfold insertIfAbsent at h1
          by_cases hmemacc : stripWrappingCharacters rawToken ∈ acc
          · rw [if_pos hmemacc] at h1
            exact Or.inl h1
          · rw [if_neg hmemacc] at h1
            rcases List.mem_append.mp h1 with h2 | h2
            · exact Or.inl h2
            · have he2 : r = stripWrappingCharacters rawToken := List.mem_singleton.mp h2
              subst he2
              refine Or.inr ⟨rawToken, List.mem_cons_self _ _, rfl, ?_⟩
              cases hfu : isFileUrl (stripWrappingCharacters rawToken)
              · rfl
              · exact absurd (Or.inr (Or.inr hfu)) hskip
        · exact Or.inr ⟨tk, List.mem_cons_of_mem _ htk, he, hf⟩
      · rw [if_neg hsup] at h
        rcases pass2_mem ts acc r h with h1 | ⟨tk, htk, he, hf⟩
        · exact Or.inl h1
        · exact Or.inr ⟨tk, List.mem_cons_of_mem _ htk, he, hf⟩

theorem loadLoop_ok (env : Env) : ∀ (refs : List Str),
    (∀ r ∈ refs, ∃ v, loadInlineDataPart env r = .ok v) →
    ∃ ps, loadLoop env refs = .ok ps
  | [] => fun _ => ⟨[], rfl⟩
  | r :: rs => fun h => by
    obtain ⟨v, hv⟩ := h r (List.mem_cons_self _ _)
    obtain ⟨ps, hps⟩ := loadLoop_ok env rs fun x hx => h x (List.mem_cons_of_mem _ hx)
    simp only [loadLoop]
    rw [hv]
    simp only [ok_bind]
    rw [hps]
    simp only [ok_bind]
    exact ⟨_, rfl⟩

/-!  Claim theorems. -/

/-- C5 counterexample: `stripWrappingCharacters` is not idempotent. On
`"a ."` it strips the trailing dot and stops at the exposed space, yielding
`"a "`; a second application trims that space and yields `"a"`. -/
theorem C5_counterexample :
    stripWrappingCharacters (stripWrappingCharacters "a .".toList) ≠
      stripWrappingCharacters "a .".toList := by decide

/-- C5 (amended): the token normalizer is idempotent on whitespace-free
strings — in particular on every candidate the two scanning passes produce,
since raw regex matches and whitespace-split tokens never contain
whitespace; on strings with interior whitespace a stripped trailing or
leading character can expose whitespace that only a second application
trims. -/
theorem C5_strip_idempotent_wsfree (s : Str) (h : ∀ c ∈ s, isJsWhitespace c = false) :
    stripWrappingCharacters (stripWrappingCharacters s) = stripWrappingCharacters s :=
  strip_fix_of_noWs s h

/-- Witness for C5 at the whitespace-free string `"(a.pdf)."`. -/
theorem C5_witness :
    stripWrappingCharacters (stripWrappingCharacters "(a.pdf).".toList) =
      stripWrappingCharacters "(a.pdf).".toList :=
  C5_strip_idempotent_wsfree "(a.pdf).".toList (by decide)

/-- C6 counterexample: for the string `".pdf"` the claim's rule — the
substring starting at the last `.` of the pre-query text — yields `.pdf`,
which is a key of the table, so the claim classifies the string as
supported; but `getExtension` (Node `path.extname`) treats a dotfile as
having no extension, so the code reports no extension and the string is not
supported. -/
theorem C6_counterexample :
    getExtension ".pdf".toList = none ∧
    claimExtension ".pdf".toList = some ".pdf".toList ∧
    (SUPPORTED_FILE_TYPES ".pdf".toList).isSome = true ∧
    isSupportedRef ".pdf".toList = false := by decide

/-- C6 (amended): the classifier's extension is Node `path.extname` of the
text before the first `?` or `#`, lower-cased — the substring from the last
dot of the final path component, except that a dotfile component (a dot in
first position) and the component `..` have no extension; matching is
case-insensitive (lower-casing the input does not change the result), and a
string is supported exactly when that extension exists and is a key of the
`SUPPORTED_FILE_TYPES` table. -/
theorem C6_extension_classifier (s : Str) :
    getExtension (lowerStr s) = getExtension s ∧
    (isSupportedRef s = true ↔
      ∃ ext, getExtension s = some ext ∧ (SUPPORTED_FILE_TYPES ext).isSome = true) := by
  refine ⟨getExtension_lower s, ?_⟩
  unfold isSupportedRef
  cases h : getExtension s with
  | none => simp
  | some ext => simp

/-- Witness for C6 at `"FILE.PDF"`, whose extension is `.pdf`. -/
theorem C6_witness :
    (getExtension (lowerStr "FILE.PDF".toList) = getExtension "FILE.PDF".toList ∧
      (isSupportedRef "FILE.PDF".toList = true ↔
        ∃ ext, getExtension "FILE.PDF".toList = some ext ∧
          (SUPPORTED_FILE_TYPES ext).isSome = true)) ∧
    getExtension "FILE.PDF".toList = some ".pdf".toList :=
  ⟨C6_extension_classifier "FILE.PDF".toList, by decide⟩

/-- C9: on both the success path and the top-level-failure path, the
returned `ConnectorResponse` contains only completions — the optional
`ModelType` field is never populated. -/
theorem C9_no_model_type (env : Env) (prompts : List Str) :
    (main env prompts).ModelType = none := by
  unfold main
  split <;> rfl

/-- C2: when batch setup succeeds, `main` returns exactly one completion per
prompt in input order — the i-th completion is the processing result of the
i-th prompt — even if every prompt errors; when an exception occurs before
or outside the per-prompt loop, the result is a single `ErrorCompletion`
regardless of how many prompts were supplied. -/
theorem C2_completions_shape (env : Env) (prompts : List Str) :
    (env.setup = .ok () →
      (main env prompts).Completions.length = prompts.length ∧
      ∀ i p, prompts[i]? = some p →
        (main env prompts).Completions[i]? = some (processPrompt env i p)) ∧
    (∀ e, env.setup = .error e → (main env prompts).Completions = [.err e]) := by
  constructor
  · intro h
    unfold main
    rw [h]
    dsimp only
    exact ⟨processAll_length env prompts 0,
      fun i p hp => by simpa using processAll_getElem? env prompts i 0 p hp⟩
  · intro e h
    unfold main
    rw [h]
    rfl

/-- Witness for C2: a two-prompt batch in a healthy environment yields two
completions; a failing setup yields one error completion for the same
batch. -/
theorem C2_witness :
    (main envDemo ["hi".toList, "yo".toList]).Completions.length = 2 ∧
    (main envSetupFail ["hi".toList, "yo".toList]).Completions =
      [.err "invalid api key"] := by
  constructor
  · exact ((C2_completions_shape envDemo ["hi".toList, "yo".toList]).1 rfl).1.trans rfl
  · exact (C2_completions_shape envSetupFail ["hi".toList, "yo".toList]).2 "invalid api key" rfl

/-- C7: a prompt containing the same normalized reference more than once —
via the explicit-link pass, the bare-token pass, or both — yields it exactly
once in `extractFileReferences`' result: the reference list is
duplicate-free and counts every member once. The loader loop of
`buildMessageParts` calls `loadInlineDataPart` once per element of that
list, hence exactly once per normalized reference. -/
theorem C7_dedup (env : Env) (text : Str) (refs : List Str)
    (h : extractFileReferences env text = .ok refs) :
    refs.Nodup ∧ ∀ r ∈ refs, refs.count r = 1 := by
  have hk := extract_eq_kept env text
  rw [h] at hk
  cases hks : pass1Kept env (remoteMatches text) with
  | error e =>
    rw [hks] at hk
    exact absurd hk (by simp)
  | ok k1 =>
    rw [hks] at hk
    have hk2 : (Except.ok refs : Except Err (List Str))
        = Except.ok (dedupKeepFirst (k1 ++ pass2Kept (splitWs text))) := hk
    have hrefs := Except.ok.inj hk2
    rw [hrefs]
    exact ⟨dedupKeepFirst_nodup _, fun r hr =>
      nodup_count_one _ r (dedupKeepFirst_nodup _) hr⟩

/-- Witness for C7: the prompt `"x x.pdf x.pdf"` mentions `x.pdf` twice and
extraction returns it exactly once. -/
theorem C7_witness :
    (["x.pdf".toList] : List Str).Nodup ∧
      ∀ r ∈ (["x.pdf".toList] : List Str), (["x.pdf".toList] : List Str).count r = 1 :=
  C7_dedup envDemo "x x.pdf x.pdf".toList ["x.pdf".toList] (by decide)

/-- C3 counterexample: in the prompt `"a.pdf http://e.com/b.png"` the bare
reference `a.pdf` is encountered first (index 0, before the URL at index 6),
yet the built message parts place the remote png attachment before the pdf
attachment, because every explicit-link match is processed before any bare
token. -/
theorem C3_counterexample :
    buildMessageParts envDemo "a.pdf http://e.com/b.png".toList =
      .ok [.text "a.pdf http://e.com/b.png".toList,
        .inlineData "image/png".toList (base64Encode [2]),
        .inlineData "application/pdf".toList (base64Encode [1])] ∧
    firstOccurIdx "a.pdf".toList "a.pdf http://e.com/b.png".toList = some 0 ∧
    firstOccurIdx "http://e.com/b.png".toList "a.pdf http://e.com/b.png".toList = some 6 ∧
    ("image/png".toList : Str) ≠ "application/pdf".toList := by decide

/-- C3 (amended): `buildMessageParts` emits the prompt text first, followed
by the successfully loaded attachments, one load per deduplicated reference
in reference-list order; that list is the first-occurrence deduplication of
the explicit-link pass's kept candidates (in match order) followed by the
bare-token pass's kept candidates (in token order) — not global
first-encounter order: every explicit-link reference precedes every
bare-token reference. -/
theorem C3_parts_order (env : Env) (prompt : Str) (refs : List Str) (parts : List MsgPart)
    (hrefs : extractFileReferences env prompt = .ok refs)
    (hparts : buildMessageParts env prompt = .ok parts) :
    ∃ k1 atts, pass1Kept env (remoteMatches prompt) = .ok k1 ∧
      refs = dedupKeepFirst (k1 ++ pass2Kept (splitWs prompt)) ∧
      loadLoop env refs = .ok atts ∧
      parts = .text prompt :: atts := by
  have hk := extract_eq_kept env prompt
  rw [hrefs] at hk
  cases hks : pass1Kept env (remoteMatches prompt) with
  | error e =>
    rw [hks] at hk
    exact absurd hk (by simp)
  | ok k1 =>
    rw [hks] at hk
    have hk2 : (Except.ok refs : Except Err (List Str))
        = Except.ok (dedupKeepFirst (k1 ++ pass2Kept (splitWs prompt))) := hk
    have hrd := Except.ok.inj hk2
    simp only [buildMessageParts, hrefs, ok_bind] at hparts
    by_cases h0 : refs = []
    · rw [if_pos h0] at hparts
      have hparts2 : parts = [MsgPart.text prompt] := (Except.ok.inj hparts).symm
      refine ⟨k1, [], rfl, hrd, ?_, ?_⟩
      · rw [h0]; rfl
      · rw [hparts2]
    · rw [if_neg h0] at hparts
      cases hll : loadLoop env refs with
      | error e =>
        rw [hll] at hparts
        exact absurd hparts (by simp [error_bind])
      | ok ips =>
        rw [hll] at hparts
        simp only [ok_bind] at hparts
        have hparts2 : parts = MsgPart.text prompt :: ips := (Except.ok.inj hparts).symm
        exact ⟨k1, ips, rfl, hrd, rfl, hparts2⟩

/-- Witness for C3 at the prompt `"a.pdf http://e.com/b.png"`. -/
theorem C3_witness :
    ∃ k1 atts,
      pass1Kept envDemo (remoteMatches "a.pdf http://e.com/b.png".toList) = .ok k1 ∧
      (["http://e.com/b.png".toList, "a.pdf".toList] : List Str) =
        dedupKeepFirst (k1 ++ pass2Kept (splitWs "a.pdf http://e.com/b.png".toList)) ∧
      loadLoop envDemo ["http://e.com/b.png".toList, "a.pdf".toList] = .ok atts ∧
      ([.text "a.pdf http://e.com/b.png".toList,
        .inlineData "image/png".toList (base64Encode [2]),
        .inlineData "application/pdf".toList (base64Encode [1])] : List MsgPart) =
        .text "a.pdf http://e.com/b.png".toList :: atts :=
  C3_parts_order envDemo "a.pdf http://e.com/b.png".toList
    ["http://e.com/b.png".toList, "a.pdf".toList]
    [.text "a.pdf http://e.com/b.png".toList,
      .inlineData "image/png".toList (base64Encode [2]),
      .inlineData "application/pdf".toList (base64Encode [1])]
    (by decide) (by decide)

/-- C8 counterexample: the prompt `"file://a.b"` contains no candidate with
a supported extension (the extension `.b` is not a table key, witnessed by
`isSupportedRef` on both the token and the path), yet `buildMessageParts`
does not return the single text part: the explicit-link pass matches
`file://a.b`, whose URL-to-path conversion (host `a.b`) throws outside any
try/catch, so building the parts throws instead of returning one part. -/
theorem C8_counterexample :
    buildMessageParts envDemo "file://a.b".toList ≠
      .ok [.text "file://a.b".toList] ∧
    buildMessageParts envDemo "file://a.b".toList =
      .error "File URL host must be localhost or empty" ∧
    isSupportedRef "a.b".toList = false ∧
    isSupportedRef "file://a.b".toList = false := by decide

/-- C8 (amended): whenever `buildMessageParts` returns, its first part is
the prompt's plain text; and for every prompt whose reference extraction
succeeds with zero candidates — in particular any prompt without a supported
candidate that also has no `file://` match with an unresolvable URL — it
returns exactly one part, the text part. -/
theorem C8_text_first (env : Env) (prompt : Str) :
    (∀ parts, buildMessageParts env prompt = .ok parts →
      parts.head? = some (.text prompt)) ∧
    (extractFileReferences env prompt = .ok [] →
      buildMessageParts env prompt = .ok [.text prompt]) := by
  constructor
  · intro parts hp
    cases hrefs : extractFileReferences env prompt with
    | error e =>
      simp only [buildMessageParts, hrefs, error_bind] at hp
      exact absurd hp (by simp)
    | ok refs =>
      simp only [buildMessageParts, hrefs, ok_bind] at hp
      by_cases h0 : refs = []
      · rw [if_pos h0] at hp
        have h2 : [MsgPart.text prompt] = parts := Except.ok.inj hp
        rw [← h2]
        rfl
      · rw [if_neg h0] at hp
        cases hll : loadLoop env refs with
        | error e =>
          rw [hll] at hp
          exact absurd hp (by simp [error_bind])
        | ok ips =>
          rw [hll] at hp
          simp only [ok_bind] at hp
          have h2 : MsgPart.text prompt :: ips = parts := Except.ok.inj hp
          rw [← h2]
          rfl
  · intro h
    simp only [buildMessageParts, h, ok_bind]
    rfl

/-- Witness for C8: a plain prompt with no references yields exactly the
text part. -/
theorem C8_witness :
    buildMessageParts envDemo "hello there".toList = .ok [.text "hello there".toList] :=
  (C8_text_first envDemo "hello there".toList).2 (by decide)

/-- C10: every attachment part produced for a non-HTTP (local-path or
`file://`) reference carries a media type that is one of the
`SUPPORTED_FILE_TYPES` table's values; in particular the
`application/octet-stream` fallback of `guessMimeType` is unreachable there,
because the loader's pre-check guarantees a supported fallback extension. -/
theorem C10_local_mime_in_table (env : Env) (r mt d : Str)
    (hhttp : isHttpUrl (stripWrappingCharacters r) = false)
    (h : loadInlineDataPart env r = .ok (some (.inlineData mt d))) :
    mt ∈ supportedMimeValues ∧ mt ≠ "application/octet-stream".toList := by
  obtain ⟨fp, ext, bytes, hsup, _, _, hmt, _⟩ := load_local_shape env r mt d hhttp h
  rw [hmt]
  exact ⟨guessMimeType_mem fp ext hsup,
    values_ne_octet _ (guessMimeType_mem fp ext hsup)⟩

/-- Witness for C10 at the local reference `a.pdf` in `envDemo`. -/
theorem C10_witness :
    "application/pdf".toList ∈ supportedMimeValues ∧
      "application/pdf".toList ≠ "application/octet-stream".toList :=
  C10_local_mime_in_table envDemo "a.pdf".toList "application/pdf".toList
    (base64Encode [1]) (by decide) (by decide)

/-- C4: for a remote-HTTP reference fetched with a success status (200-299),
the produced attachment's media type follows the spec-side rule
`specMediaType`: the table guess for the reference's extension by default,
overridden by the MIME portion of the server's `Content-Type` header (the
text before the first `;`, trimmed) exactly when that declared value is
non-empty and differs from the guess; for non-HTTP (local-path and
`file://`) references the media type comes from `guessMimeType` on the
resolved filesystem path, so the server override never applies. -/
theorem C4_media_type (env : Env) (r : Str) :
    (∀ status hdr bytes ext guessed,
      isHttpUrl (stripWrappingCharacters r) = true →
      getExtension (stripWrappingCharacters r) = some ext →
      SUPPORTED_FILE_TYPES ext = some guessed →
      env.fetch (stripWrappingCharacters r) = .ok (status, hdr, bytes) →
      200 ≤ status → status < 300 →
      loadInlineDataPart env r = .ok (some (.inlineData
        (specMediaType guessed
          ((hdr.map fun hh => trimJs (hh.takeWhile (· ≠ ';'))).getD []))
        (base64Encode bytes)))) ∧
    (∀ mt d, isHttpUrl (stripWrappingCharacters r) = false →
      loadInlineDataPart env r = .ok (some (.inlineData mt d)) →
      ∃ fp ext, (SUPPORTED_FILE_TYPES ext).isSome = true ∧
        resolveLocalPath env (stripWrappingCharacters r) = .ok fp ∧
        mt = guessMimeType fp ext) := by
  constructor
  · intro status hdr bytes ext guessed hhttp hext hsup hfetch hlo hhi
    have hnf := http_not_file _ hhttp
    have hb : loadBody env (stripWrappingCharacters r) ext = .ok (some (.inlineData
        (specMediaType guessed
          ((hdr.map fun hh => trimJs (hh.takeWhile (· ≠ ';'))).getD []))
        (base64Encode bytes))) := by
      simp only [loadBody]
      rw [if_pos hhttp, hfetch]
      simp only [ok_bind]
      rw [if_neg (by omega), hsup]
      simp only [Option.getD_some]
      cases hdr with
      | none =>
        rw [show specMediaType guessed
            ((Option.map (fun hh => trimJs (hh.takeWhile (· ≠ ';')))
              (none : Option Str)).getD []) = guessed from by simp [specMediaType]]
        rfl
      | some hstr =>
        simp only [Option.map_some', Option.getD_some]
        unfold specMediaType
        rw [show (if trimJs (hstr.takeWhile (· ≠ ';')) ≠ [] ∧
              guessed ≠ trimJs (hstr.takeWhile (· ≠ ';')) then
            trimJs (hstr.takeWhile (· ≠ ';')) else guessed)
            = (if trimJs (hstr.takeWhile (· ≠ ';')) ≠ [] ∧
              trimJs (hstr.takeWhile (· ≠ ';')) ≠ guessed then
            trimJs (hstr.takeWhile (· ≠ ';')) else guessed)
          from if_congr (and_congr_right fun _ => ne_comm) rfl rfl]
        rfl
    simp only [loadInlineDataPart]
    rw [if_neg (by rw [hnf]; simp)]
    simp only [pure_bind_ex]
    rw [hext]
    rw [if_neg (by simp [hsup])]
    simp only [Option.getD_some]
    rw [hb]
    rfl
  · intro mt d hhttp h
    obtain ⟨fp, ext, bytes, hsup, h1, h2, hmt, _⟩ := load_local_shape env r mt d hhttp h
    exact ⟨fp, ext, hsup, h1, hmt⟩

/-- Witness for C4: the remote png of `envDemo` (whose declared content type
equals the guess, so no override occurs), and the local pdf whose media type
is the extension guess of the resolved path. -/
theorem C4_witness :
    (loadInlineDataPart envDemo "http://e.com/b.png".toList = .ok (some (.inlineData
      (specMediaType "image/png".toList
        (((some "image/png".toList).map fun hh => trimJs (hh.takeWhile (· ≠ ';'))).getD []))
      (base64Encode [2])))) ∧
    (∃ fp ext, (SUPPORTED_FILE_TYPES ext).isSome = true ∧
      resolveLocalPath envDemo (stripWrappingCharacters "a.pdf".toList) = .ok fp ∧
      "application/pdf".toList = guessMimeType fp ext) :=
  ⟨(C4_media_type envDemo "http://e.com/b.png".toList).1 200 (some "image/png".toList)
      [2] ".png".toList "image/png".toList (by decide) (by decide) (by decide) (by decide)
      (by decide) (by decide),
    (C4_media_type envDemo "a.pdf".toList).2 "application/pdf".toList (base64Encode [1])
      (by decide) (by decide)⟩

/-- C1 counterexample: the prompt `"file://a.pdf"` contains a reference
whose loading fails (the URL's host `a.pdf` makes `fileURLToPath` throw),
and the prompt's completion becomes an `ErrorCompletion` — the exception is
raised by the extension-derivation step that runs outside every try/catch,
escapes to the per-prompt loop, and is recorded as the prompt's error, even
though the model collaborator itself would have replied successfully. -/
theorem C1_counterexample :
    (main envDemo ["file://a.pdf".toList]).Completions =
      [.err "File URL host must be localhost or empty"] ∧
    envDemo.chatSend 0 [.text "file://a.pdf".toList] = .ok (some "reply".toList) := by
  decide

/-- C1 (amended): whenever reference extraction succeeds for a prompt, no
subsequent loading failure can escape: `buildMessageParts` returns normally
for any behavior of the network and filesystem (failed fetches, non-success
statuses and unreadable files are caught by the loader and merely drop the
attachment). The exception is the pre-guard extension-derivation step for
`file://` references (`fileURLToPath` at source lines 96 and 126, outside
any try/catch): a `file://` reference whose URL-to-path conversion throws
makes extraction itself throw, and the per-prompt handler records an
`ErrorCompletion` for that prompt. -/
theorem C1_guarded_failures (env : Env) (prompt : Str) (refs : List Str)
    (h : extractFileReferences env prompt = .ok refs) :
    ∃ parts, buildMessageParts env prompt = .ok parts := by
  have hsplit : ∃ acc, pass1 env [] (remoteMatches prompt) = .ok acc ∧
      refs = pass2 acc (splitWs prompt) := by
    unfold extractFileReferences at h
    cases hp1 : pass1 env [] (remoteMatches prompt) with
    | error e =>
      rw [hp1] at h
      exact absurd h (by simp [error_bind])
    | ok acc =>
      rw [hp1] at h
      simp only [ok_bind] at h
      exact ⟨acc, rfl, (Except.ok.inj h).symm⟩
  obtain ⟨acc, hacc, hrefs⟩ := hsplit
  have hload : ∀ r ∈ refs, ∃ v, loadInlineDataPart env r = .ok v := by
    intro r hr
    rw [hrefs] at hr
    rcases pass2_mem (splitWs prompt) acc r hr with h1 | ⟨tk, htk, he, hfu⟩
    · rcases pass1_refs_facts env (remoteMatches prompt) [] acc hacc r h1 with
        h2 | ⟨m, hm, he, hfile⟩
      · exact absurd h2 (List.not_mem_nil r)
      · have hmws : ∀ c ∈ m, isJsWhitespace c = false :=
          remoteMatchesAux_noWs prompt.length none prompt m hm
        have hfix : stripWrappingCharacters r = r := by
          rw [he]
          exact strip_fix_of_noWs m hmws
        exact load_ok_of_fix env r hfix hfile
    · have htws : ∀ c ∈ tk, isJsWhitespace c = false :=
        splitWsAux_noWs prompt.length prompt tk htk
      have hfix : stripWrappingCharacters r = r := by
        rw [he]
        exact strip_fix_of_noWs tk htws
      exact load_ok_of_fix env r hfix fun hpre =>
        absurd (filePre_isFileUrl r hpre) (by simp [hfu])
  unfold buildMessageParts
  rw [h]
  simp only [ok_bind]
  by_cases h0 : refs = []
  · rw [if_pos h0]
    exact ⟨_, rfl⟩
  · rw [if_neg h0]
    obtain ⟨ps, hps⟩ := loadLoop_ok env refs hload
    rw [hps]
    simp only [ok_bind]
    exact ⟨_, rfl⟩

/-- Witness for C1: a prompt with one loadable `file://` reference and one
local reference whose file read fails — extraction succeeds, so the build
step returns (with the unreadable attachment silently dropped). -/
theorem C1_witness :
    ∃ parts, buildMessageParts envDemo "file:///w/a.pdf nope.gif".toList = .ok parts :=
  C1_guarded_failures envDemo "file:///w/a.pdf nope.gif".toList
    ["file:///w/a.pdf".toList, "nope.gif".toList] (by decide)

end GeminiConnector
